import Mathlib

/-!
Verification of the petrivelte control-plane consistency layer.

The observer-side (frontend) components are embedded from the TypeScript
sources (`src/frontend/src/lib/stores/serverEvents.ts` and the workers page
script).  The backend components (ReconciliationRules, NotificationPublisher,
SharedEventListener / EventSubscriptionEndpoint, HealthCheckScheduler) exist
in the repository only as design documents (`BACKEND_COMS.md`), so they are
modelled from the spec, as marked on each definition.
-/

namespace Petrivelte

/-! ## Data model (spec section 3 / BACKEND_COMS.md state model) -/

inductive WorkerStatus
  | pending
  | provisioning
  | ready
  | stopped
  | error
  deriving DecidableEq, Repr

inductive WorkerCategory
  | ephemeral
  | persistent
  deriving DecidableEq, Repr

inductive StatusDetail
  | unreachable
  | machine_stopped
  | machine_destroyed
  | provision_failed
  deriving DecidableEq, Repr

inductive LoadState
  | unloaded
  | loaded
  | error
  deriving DecidableEq, Repr

structure Worker where
  id : Nat
  category : WorkerCategory
  status : WorkerStatus
  detail : Option StatusDetail
  deriving DecidableEq, Repr

structure Net where
  id : Nat
  worker_id : Option Nat
  load_state : LoadState
  deriving DecidableEq, Repr

structure StoreState where
  workers : List Worker
  nets : List Net
  deriving DecidableEq, Repr

def findWorker (s : StoreState) (wid : Nat) : Option Worker :=
  s.workers.find? (fun w => w.id == wid)

def findNet (s : StoreState) (nid : Nat) : Option Net :=
  s.nets.find? (fun n => n.id == nid)

def netsAssignedTo (s : StoreState) (wid : Nat) : List Net :=
  s.nets.filter (fun n => n.worker_id == some wid)

/-! ## ReconciliationRules (modelled from the spec) -/

/-- Modelled from the spec: the worker state table of BACKEND_COMS.md
("Worker States", transitions column); only persistent workers may be
stopped. -/
def workerTransitionAllowed (c : WorkerCategory) (src dst : WorkerStatus) : Bool :=
  match src, dst with
  | .pending, .provisioning => true
  | .provisioning, .ready => true
  | .provisioning, .error => true
  | .ready, .stopped => c == .persistent
  | .ready, .error => true
  | .stopped, .ready => true
  | .stopped, .error => true
  | .error, .provisioning => true
  | _, _ => false

/-- Modelled from the spec: the net load-state table of BACKEND_COMS.md
("Net Load States", transitions column). -/
def netTransitionAllowed (src dst : LoadState) : Bool :=
  match src, dst with
  | .unloaded, .loaded => true
  | .unloaded, .error => true
  | .loaded, .unloaded => true
  | .loaded, .error => true
  | .error, .unloaded => true
  | .error, .loaded => true
  | _, _ => false

inductive Intent
  | SetWorkerStatus (worker_id : Nat) (newStatus : WorkerStatus) (detail : Option StatusDetail)
  | AssignNet (net_id : Nat) (worker_id : Option Nat)
  | DeleteWorker (worker_id : Nat)
  | SetNetLoadState (net_id : Nat) (newState : LoadState)
  deriving DecidableEq, Repr

inductive Update
  | workerStatus (worker_id : Nat) (s : WorkerStatus) (d : Option StatusDetail)
  | netAssign (net_id : Nat) (target : Option Nat)
  | netLoadState (net_id : Nat) (ls : LoadState)
  | workerDelete (worker_id : Nat)
  deriving DecidableEq, Repr

inductive RuleError
  | invalidTransition
  | notFound
  deriving DecidableEq, Repr

namespace Recon

/-- Modelled from the spec: ReconciliationRules.apply (spec section 4.1,
not implemented under src; BACKEND_COMS.md gives only the design).  A pure
function of the current snapshot and the intent producing a flat list of
atomic field updates.  A same-state request is accepted as a no-op.  For
`SetWorkerStatus` transitioning away from `ready` it emits an unload for
every net assigned to the worker (Invariant 1).  For `AssignNet` to a
different worker or to null it emits `SetNetLoadState(net, unloaded)`
unconditionally (Invariant 2).  For `DeleteWorker` it emits unassign plus
unload for every owned net (Invariant 3).  `SetNetLoadState` to `loaded` or
`error` is rejected unless the owning worker exists and is `ready`: the
spec states the invariants are enforced by ReconciliationRules and
Invariants 1 and 4 require exactly this guard. -/
def apply (s : StoreState) : Intent → Except RuleError (List Update)
  | .SetWorkerStatus wid st d =>
    match findWorker s wid with
    | none => .error .notFound
    | some w =>
      if w.status = st then .ok []
      else if workerTransitionAllowed w.category w.status st then
        .ok (Update.workerStatus wid st d ::
          (if w.status = .ready then
            (netsAssignedTo s wid).map (fun n => Update.netLoadState n.id .unloaded)
          else []))
      else .error .invalidTransition
  | .AssignNet nid target =>
    match findNet s nid with
    | none => .error .notFound
    | some n =>
      match target with
      | none => .ok [Update.netAssign nid none, Update.netLoadState nid .unloaded]
      | some wid =>
        match findWorker s wid with
        | none => .error .notFound
        | some _ =>
          if n.worker_id = some wid then .ok [Update.netAssign nid (some wid)]
          else .ok [Update.netAssign nid (some wid), Update.netLoadState nid .unloaded]
  | .DeleteWorker wid =>
    match findWorker s wid with
    | none => .error .notFound
    | some _ =>
      .ok ((netsAssignedTo s wid).map (fun n => Update.netAssign n.id none) ++
           ((netsAssignedTo s wid).map (fun n => Update.netLoadState n.id .unloaded) ++
            [Update.workerDelete wid]))
  | .SetNetLoadState nid st =>
    match findNet s nid with
    | none => .error .notFound
    | some n =>
      if n.load_state = st then .ok []
      else if netTransitionAllowed n.load_state st then
        match st with
        | .unloaded => .ok [Update.netLoadState nid .unloaded]
        | _ =>
          match n.worker_id with
          | none => .error .invalidTransition
          | some wid =>
            match findWorker s wid with
            | none => .error .notFound
            | some w =>
              if w.status = .ready then .ok [Update.netLoadState nid st]
              else .error .invalidTransition
      else .error .invalidTransition

end Recon

/-- Modelled from the spec: application of one atomic field update to the
store (spec section 4.1, "the caller applies them inside one storage
transaction"). -/
def applyUpdate (s : StoreState) : Update → StoreState
  | .workerStatus wid st d =>
    { s with workers :=
        s.workers.map (fun w => if w.id = wid then { w with status := st, detail := d } else w) }
  | .netAssign nid t =>
    { s with nets :=
        s.nets.map (fun n => if n.id = nid then { n with worker_id := t } else n) }
  | .netLoadState nid st =>
    { s with nets :=
        s.nets.map (fun n => if n.id = nid then { n with load_state := st } else n) }
  | .workerDelete wid =>
    { s with workers := s.workers.filter (fun w => w.id ≠ wid) }

/-- Applying a whole update list is one committed transaction. -/
def commitUpdates (s : StoreState) (us : List Update) : StoreState :=
  us.foldl applyUpdate s

/-- One intent routed through ReconciliationRules: a rejected intent leaves
the store unchanged (no state change, no event); an accepted one commits
the full cascade. -/
def applyIntent (s : StoreState) (i : Intent) : StoreState :=
  match Recon.apply s i with
  | .ok us => commitUpdates s us
  | .error _ => s

/-- A sequence of intents, each committed in its own transaction. -/
def runIntents (s : StoreState) (is : List Intent) : StoreState :=
  is.foldl applyIntent s

/-! ## The four invariants of spec section 3 as state predicates -/

/-- Primary keys: worker ids are pairwise distinct, net ids are pairwise
distinct. -/
def WellKeyed (s : StoreState) : Prop :=
  (s.workers.map Worker.id).Nodup ∧ (s.nets.map Net.id).Nodup

/-- Referential integrity residue of Invariant 3: an assigned net always
references an existing worker (deleting a worker unassigns its nets, so no
dangling reference remains). -/
def InvRef (s : StoreState) : Prop :=
  ∀ n ∈ s.nets, ∀ wid, n.worker_id = some wid → ∃ w ∈ s.workers, w.id = wid

/-- Invariant 1: if a worker is not ready, every net assigned to it is
unloaded. -/
def Inv1 (s : StoreState) : Prop :=
  ∀ w ∈ s.workers, w.status ≠ .ready →
    ∀ n ∈ s.nets, n.worker_id = some w.id → n.load_state = .unloaded

/-- Invariant 4 residue: a loaded net is assigned to some worker. -/
def InvLoadedAssigned (s : StoreState) : Prop :=
  ∀ n ∈ s.nets, n.load_state = .loaded → n.worker_id ≠ none

/-- The conjunction of the state invariants maintained by
ReconciliationRules. -/
def Inv (s : StoreState) : Prop :=
  WellKeyed s ∧ InvRef s ∧ Inv1 s ∧ InvLoadedAssigned s

/-- Invariant 4 in full: a loaded net has an existing, ready owning
worker.  It follows from InvRef, Inv1 and InvLoadedAssigned. -/
def Inv4 (s : StoreState) : Prop :=
  ∀ n ∈ s.nets, n.load_state = .loaded →
    ∃ wid, n.worker_id = some wid ∧ ∃ w ∈ s.workers, w.id = wid ∧ w.status = .ready

theorem inv4_of_inv {s : StoreState} (h : Inv s) : Inv4 s := by
  obtain ⟨-, href, hinv1, hload⟩ := h
  intro n hn hl
  cases hw : n.worker_id with
  | none => exact absurd hw (hload n hn hl)
  | some wid =>
    obtain ⟨w, hwmem, hwid⟩ := href n hn wid hw
    refine ⟨wid, rfl, w, hwmem, hwid, ?_⟩
    by_contra hnr
    have := hinv1 w hwmem hnr n hn (by rw [hwid]; exact hw)
    simp [this] at hl

/-! ## Commit characterization lemmas -/

theorem commitUpdates_nil (s : StoreState) : commitUpdates s [] = s := rfl

theorem commitUpdates_cons (s : StoreState) (u : Update) (us : List Update) :
    commitUpdates s (u :: us) = commitUpdates (applyUpdate s u) us := rfl

theorem commitUpdates_append (s : StoreState) (us vs : List Update) :
    commitUpdates s (us ++ vs) = commitUpdates (commitUpdates s us) vs :=
  List.foldl_append ..

/-- Listed nets get their load_state forced to unloaded. -/
def setUnloadedIfListed (l : List Net) (m : Net) : Net :=
  if l.any (fun n => m.id == n.id) then { m with load_state := .unloaded } else m

/-- Listed nets get their worker_id forced to none. -/
def unassignIfListed (l : List Net) (m : Net) : Net :=
  if l.any (fun n => m.id == n.id) then { m with worker_id := none } else m

/-- Listed nets get unassigned and unloaded. -/
def resetIfListed (l : List Net) (m : Net) : Net :=
  if l.any (fun n => m.id == n.id) then { m with worker_id := none, load_state := .unloaded }
  else m

theorem commit_unload_batch (l : List Net) (s : StoreState) :
    commitUpdates s (l.map (fun n => Update.netLoadState n.id .unloaded)) =
    { s with nets := s.nets.map (setUnloadedIfListed l) } := by
  induction l generalizing s with
  | nil =>
    have hfn : setUnloadedIfListed ([] : List Net) = id := by
      funext m; simp [setUnloadedIfListed]
    simp only [List.map_nil, commitUpdates_nil, hfn, List.map_id]
  | cons a l ih =>
    rw [List.map_cons, commitUpdates_cons, ih]
    simp only [applyUpdate, List.map_map]
    congr 1
    apply List.map_congr_left
    intro m _
    simp only [Function.comp, setUnloadedIfListed, List.any_cons]
    by_cases h : m.id = a.id
    · by_cases h2 : l.any (fun n => m.id == n.id) <;> simp [h, h2]
    · by_cases h2 : l.any (fun n => m.id == n.id) <;> simp [h, h2]

theorem commit_unassign_batch (l : List Net) (s : StoreState) :
    commitUpdates s (l.map (fun n => Update.netAssign n.id none)) =
    { s with nets := s.nets.map (unassignIfListed l) } := by
  induction l generalizing s with
  | nil =>
    have hfn : unassignIfListed ([] : List Net) = id := by
      funext m; simp [unassignIfListed]
    simp only [List.map_nil, commitUpdates_nil, hfn, List.map_id]
  | cons a l ih =>
    rw [List.map_cons, commitUpdates_cons, ih]
    simp only [applyUpdate, List.map_map]
    congr 1
    apply List.map_congr_left
    intro m _
    simp only [Function.comp, unassignIfListed, List.any_cons]
    by_cases h : m.id = a.id
    · by_cases h2 : l.any (fun n => m.id == n.id) <;> simp [h, h2]
    · by_cases h2 : l.any (fun n => m.id == n.id) <;> simp [h, h2]

theorem unload_after_unassign (l : List Net) (nets : List Net) :
    (nets.map (unassignIfListed l)).map (setUnloadedIfListed l) =
    nets.map (resetIfListed l) := by
  rw [List.map_map]
  apply List.map_congr_left
  intro m _
  simp only [Function.comp, unassignIfListed, setUnloadedIfListed, resetIfListed]
  by_cases h : l.any (fun n => m.id == n.id) <;> simp [h]

/-- With distinct net ids, a net of the store is listed among the nets
assigned to `wid` exactly when it is itself assigned to `wid`. -/
theorem assigned_listed_iff {s : StoreState} (hnd : (s.nets.map Net.id).Nodup)
    {m : Net} (hm : m ∈ s.nets) (wid : Nat) :
    ((netsAssignedTo s wid).any (fun n => m.id == n.id) = true) ↔ m.worker_id = some wid := by
  constructor
  · intro h
    obtain ⟨n, hn, hid⟩ := List.any_eq_true.mp h
    obtain ⟨hnmem, hassigned⟩ := List.mem_filter.mp hn
    have hideq : m.id = n.id := by simpa using hid
    have : m = n := List.inj_on_of_nodup_map hnd hm hnmem hideq
    subst this
    simpa using hassigned
  · intro h
    apply List.any_eq_true.mpr
    refine ⟨m, ?_, by simp⟩
    exact List.mem_filter.mpr ⟨hm, by simp [h]⟩

@[simp] theorem setUnloadedIfListed_id (l : List Net) (m : Net) :
    (setUnloadedIfListed l m).id = m.id := by
  unfold setUnloadedIfListed; split <;> rfl

@[simp] theorem setUnloadedIfListed_worker_id (l : List Net) (m : Net) :
    (setUnloadedIfListed l m).worker_id = m.worker_id := by
  unfold setUnloadedIfListed; split <;> rfl

@[simp] theorem resetIfListed_id (l : List Net) (m : Net) :
    (resetIfListed l m).id = m.id := by
  unfold resetIfListed; split <;> rfl

theorem map_map_eq_of_comp {α : Type} {β : Type} (f : α → α) (g : α → β)
    (hf : ∀ a, g (f a) = g a) (l : List α) :
    (l.map f).map g = l.map g := by
  rw [List.map_map]
  apply List.map_congr_left
  intro a _
  exact hf a

theorem findWorker_mem {s : StoreState} {wid : Nat} {w : Worker}
    (h : findWorker s wid = some w) : w ∈ s.workers ∧ w.id = wid := by
  unfold findWorker at h
  exact ⟨List.mem_of_find?_eq_some h, by simpa using List.find?_some h⟩

theorem findNet_mem {s : StoreState} {nid : Nat} {n : Net}
    (h : findNet s nid = some n) : n ∈ s.nets ∧ n.id = nid := by
  unfold findNet at h
  exact ⟨List.mem_of_find?_eq_some h, by simpa using List.find?_some h⟩

/-! ## Shape of the committed state, per intent -/

theorem applyIntent_sws_fromReady {s : StoreState} {wid : Nat} {st : WorkerStatus}
    {d : Option StatusDetail} {w : Worker}
    (hfw : findWorker s wid = some w) (hready : w.status = .ready) (hne : st ≠ .ready)
    (hallowed : workerTransitionAllowed w.category w.status st = true) :
    applyIntent s (.SetWorkerStatus wid st d) =
      { workers :=
          s.workers.map (fun v => if v.id = wid then { v with status := st, detail := d } else v),
        nets := s.nets.map (setUnloadedIfListed (netsAssignedTo s wid)) } := by
  have hnst : ¬ (w.status = st) := by rw [hready]; exact fun h => hne h.symm
  simp only [applyIntent, Recon.apply, hfw, if_neg hnst, if_pos hallowed, if_pos hready]
  rw [commitUpdates_cons, commit_unload_batch]
  rfl

theorem applyIntent_sws_notReady {s : StoreState} {wid : Nat} {st : WorkerStatus}
    {d : Option StatusDetail} {w : Worker}
    (hfw : findWorker s wid = some w) (hready : w.status ≠ .ready) (hnst : w.status ≠ st)
    (hallowed : workerTransitionAllowed w.category w.status st = true) :
    applyIntent s (.SetWorkerStatus wid st d) =
      { s with workers :=
          s.workers.map (fun v => if v.id = wid then { v with status := st, detail := d } else v) } := by
  simp only [applyIntent, Recon.apply, hfw, if_neg hnst, if_pos hallowed, if_neg hready]
  rfl

theorem applyIntent_assign_none {s : StoreState} {nid : Nat} {n : Net}
    (hfn : findNet s nid = some n) :
    applyIntent s (.AssignNet nid none) =
      { s with nets :=
          s.nets.map (fun m =>
            if m.id = nid then { m with worker_id := none, load_state := .unloaded } else m) } := by
  simp only [applyIntent, Recon.apply, hfn]
  rw [commitUpdates_cons, commitUpdates_cons, commitUpdates_nil]
  simp only [applyUpdate, List.map_map]
  congr 1
  apply List.map_congr_left
  intro m _
  by_cases h : m.id = nid <;> simp [Function.comp, h]

theorem applyIntent_assign_same {s : StoreState} {nid wid : Nat} {n : Net} {w : Worker}
    (hfn : findNet s nid = some n) (hfw : findWorker s wid = some w)
    (hsame : n.worker_id = some wid) :
    applyIntent s (.AssignNet nid (some wid)) =
      { s with nets :=
          s.nets.map (fun m => if m.id = nid then { m with worker_id := some wid } else m) } := by
  simp only [applyIntent, Recon.apply, hfn, hfw, if_pos hsame]
  rw [commitUpdates_cons, commitUpdates_nil]
  rfl

theorem applyIntent_assign_other {s : StoreState} {nid wid : Nat} {n : Net} {w : Worker}
    (hfn : findNet s nid = some n) (hfw : findWorker s wid = some w)
    (hdiff : n.worker_id ≠ some wid) :
    applyIntent s (.AssignNet nid (some wid)) =
      { s with nets :=
          s.nets.map (fun m =>
            if m.id = nid then { m with worker_id := some wid, load_state := .unloaded }
            else m) } := by
  simp only [applyIntent, Recon.apply, hfn, hfw, if_neg hdiff]
  rw [commitUpdates_cons, commitUpdates_cons, commitUpdates_nil]
  simp only [applyUpdate, List.map_map]
  congr 1
  apply List.map_congr_left
  intro m _
  by_cases h : m.id = nid <;> simp [Function.comp, h]

theorem applyIntent_delete {s : StoreState} {wid : Nat} {w : Worker}
    (hfw : findWorker s wid = some w) :
    applyIntent s (.DeleteWorker wid) =
      { workers := s.workers.filter (fun v => v.id ≠ wid),
        nets := s.nets.map (resetIfListed (netsAssignedTo s wid)) } := by
  simp only [applyIntent, Recon.apply, hfw]
  rw [commitUpdates_append, commitUpdates_append, commit_unassign_batch, commit_unload_batch]
  rw [commitUpdates_cons, commitUpdates_nil]
  simp only [applyUpdate, unload_after_unassign]

theorem applyIntent_snls_unloaded {s : StoreState} {nid : Nat} {n : Net}
    (hfn : findNet s nid = some n) (hne : n.load_state ≠ .unloaded) :
    applyIntent s (.SetNetLoadState nid .unloaded) =
      { s with nets :=
          s.nets.map (fun m => if m.id = nid then { m with load_state := .unloaded } else m) } := by
  have hall : netTransitionAllowed n.load_state .unloaded = true := by
    cases h : n.load_state <;> simp_all [netTransitionAllowed]
  simp only [applyIntent, Recon.apply, hfn, if_neg hne, if_pos hall]
  rw [commitUpdates_cons, commitUpdates_nil]
  rfl

theorem applyIntent_snls_active {s : StoreState} {nid wid : Nat} {n : Net} {w : Worker}
    {st : LoadState}
    (hfn : findNet s nid = some n) (hne : n.load_state ≠ st)
    (hall : netTransitionAllowed n.load_state st = true)
    (hnu : st ≠ .unloaded) (howner : n.worker_id = some wid)
    (hfw : findWorker s wid = some w) (hready : w.status = .ready) :
    applyIntent s (.SetNetLoadState nid st) =
      { s with nets :=
          s.nets.map (fun m => if m.id = nid then { m with load_state := st } else m) } := by
  have hne' : ¬ (n.load_state = st) := hne
  cases st with
  | unloaded => exact absurd rfl hnu
  | loaded =>
    simp only [applyIntent, Recon.apply, hfn, if_neg hne', if_pos hall, howner, hfw,
      if_pos hready]
    rw [commitUpdates_cons, commitUpdates_nil]
    rfl
  | error =>
    simp only [applyIntent, Recon.apply, hfn, if_neg hne', if_pos hall, howner, hfw,
      if_pos hready]
    rw [commitUpdates_cons, commitUpdates_nil]
    rfl

@[simp] theorem wstatus_ite_id (c : Prop) [Decidable c] (v : Worker) (st : WorkerStatus)
    (d : Option StatusDetail) :
    (if c then ({ v with status := st, detail := d } : Worker) else v).id = v.id := by
  split <;> rfl

@[simp] theorem nassign_ite_id (c : Prop) [Decidable c] (m : Net) (t : Option Nat) :
    (if c then ({ m with worker_id := t } : Net) else m).id = m.id := by
  split <;> rfl

@[simp] theorem nload_ite_id (c : Prop) [Decidable c] (m : Net) (ls : LoadState) :
    (if c then ({ m with load_state := ls } : Net) else m).id = m.id := by
  split <;> rfl

@[simp] theorem nboth_ite_id (c : Prop) [Decidable c] (m : Net) (t : Option Nat) (ls : LoadState) :
    (if c then ({ m with worker_id := t, load_state := ls } : Net) else m).id = m.id := by
  split <;> rfl

@[simp] theorem nload_ite_worker_id (c : Prop) [Decidable c] (m : Net) (ls : LoadState) :
    (if c then ({ m with load_state := ls } : Net) else m).worker_id = m.worker_id := by
  split <;> rfl

/-- Every single intent routed through ReconciliationRules preserves the
state invariants. -/
theorem inv_applyIntent {s : StoreState} (h : Inv s) (i : Intent) : Inv (applyIntent s i) := by
  obtain ⟨hkey, href, hinv1, hload⟩ := h
  have hndw : (s.workers.map Worker.id).Nodup := hkey.1
  have hndn : (s.nets.map Net.id).Nodup := hkey.2
  cases i with
  | SetWorkerStatus wid st d =>
    cases hfw : findWorker s wid with
    | none =>
      simp only [applyIntent, Recon.apply, hfw]
      exact ⟨hkey, href, hinv1, hload⟩
    | some w =>
      obtain ⟨hwmem, hwid⟩ := findWorker_mem hfw
      by_cases hnst : w.status = st
      · simp only [applyIntent, Recon.apply, hfw, if_pos hnst, commitUpdates_nil]
        exact ⟨hkey, href, hinv1, hload⟩
      · by_cases hall : workerTransitionAllowed w.category w.status st = true
        · by_cases hready : w.status = .ready
          · have hne : st ≠ .ready := fun hst => hnst (hready.trans hst.symm)
            rw [applyIntent_sws_fromReady hfw hready hne hall]
            refine ⟨⟨?_, ?_⟩, ?_, ?_, ?_⟩
            · rw [map_map_eq_of_comp _ Worker.id (fun v => by simp)]
              exact hndw
            · rw [map_map_eq_of_comp _ Net.id (fun n => setUnloadedIfListed_id _ n)]
              exact hndn
            · intro n' hn' wid' hwid'
              obtain ⟨m, hm, rfl⟩ := List.mem_map.mp hn'
              rw [setUnloadedIfListed_worker_id] at hwid'
              obtain ⟨v, hv, hvid⟩ := href m hm wid' hwid'
              refine ⟨_, List.mem_map.mpr ⟨v, hv, rfl⟩, ?_⟩
              rcases eq_or_ne v.id wid with hv2 | hv2
              · rw [if_pos hv2]; exact hvid
              · rw [if_neg hv2]; exact hvid
            · intro w' hw' hnr n' hn' ha
              obtain ⟨v, hv, rfl⟩ := List.mem_map.mp hw'
              obtain ⟨m, hm, rfl⟩ := List.mem_map.mp hn'
              rw [setUnloadedIfListed_worker_id] at ha
              simp only [wstatus_ite_id] at ha
              by_cases hv2 : v.id = wid
              · have hmw : m.worker_id = some wid := by rw [ha, hv2]
                have hlist := (assigned_listed_iff hndn hm wid).mpr hmw
                simp [setUnloadedIfListed, hlist]
              · rw [if_neg hv2] at hnr
                have hmu : m.load_state = .unloaded := hinv1 v hv hnr m hm ha
                unfold setUnloadedIfListed
                split <;> simp [hmu]
            · intro n' hn' hl
              obtain ⟨m, hm, rfl⟩ := List.mem_map.mp hn'
              by_cases hlist : (netsAssignedTo s wid).any (fun n => m.id == n.id) = true
              · simp [setUnloadedIfListed, hlist] at hl
              · have heq : setUnloadedIfListed (netsAssignedTo s wid) m = m := by
                  simp [setUnloadedIfListed, hlist]
                rw [heq] at hl ⊢
                exact hload m hm hl
          · rw [applyIntent_sws_notReady hfw hready hnst hall]
            refine ⟨⟨?_, hndn⟩, ?_, ?_, hload⟩
            · rw [map_map_eq_of_comp _ Worker.id (fun v => by simp)]
              exact hndw
            · intro n' hn' wid' hwid'
              obtain ⟨v, hv, hvid⟩ := href n' hn' wid' hwid'
              refine ⟨_, List.mem_map.mpr ⟨v, hv, rfl⟩, ?_⟩
              rcases eq_or_ne v.id wid with hv2 | hv2
              · rw [if_pos hv2]; exact hvid
              · rw [if_neg hv2]; exact hvid
            · intro w' hw' hnr n hn ha
              obtain ⟨v, hv, rfl⟩ := List.mem_map.mp hw'
              simp only [wstatus_ite_id] at ha
              by_cases hv2 : v.id = wid
              · have hvw : v = w :=
                  List.inj_on_of_nodup_map hndw hv hwmem (by rw [hv2, hwid])
                have hvnr : v.status ≠ .ready := by rw [hvw]; exact hready
                exact hinv1 v hv hvnr n hn ha
              · rw [if_neg hv2] at hnr
                exact hinv1 v hv hnr n hn ha
        · simp only [applyIntent, Recon.apply, hfw, if_neg hnst, if_neg hall]
          exact ⟨hkey, href, hinv1, hload⟩
  | AssignNet nid target =>
    cases hfn : findNet s nid with
    | none =>
      simp only [applyIntent, Recon.apply, hfn]
      exact ⟨hkey, href, hinv1, hload⟩
    | some n =>
      obtain ⟨hnmem, hnid⟩ := findNet_mem hfn
      cases target with
      | none =>
        rw [applyIntent_assign_none hfn]
        refine ⟨⟨hndw, ?_⟩, ?_, ?_, ?_⟩
        · rw [map_map_eq_of_comp _ Net.id (fun m => by simp)]
          exact hndn
        · intro n' hn' wid' hwid'
          obtain ⟨m, hm, rfl⟩ := List.mem_map.mp hn'
          by_cases hmid : m.id = nid
          · rw [if_pos hmid] at hwid'
            simp at hwid'
          · rw [if_neg hmid] at hwid'
            exact href m hm wid' hwid'
        · intro w' hw' hnr n' hn' ha
          obtain ⟨m, hm, rfl⟩ := List.mem_map.mp hn'
          by_cases hmid : m.id = nid
          · rw [if_pos hmid] at ha
            simp at ha
          · rw [if_neg hmid] at ha ⊢
            exact hinv1 w' hw' hnr m hm ha
        · intro n' hn' hl
          obtain ⟨m, hm, rfl⟩ := List.mem_map.mp hn'
          by_cases hmid : m.id = nid
          · rw [if_pos hmid] at hl
            simp at hl
          · rw [if_neg hmid] at hl ⊢
            exact hload m hm hl
      | some wid =>
        cases hfw : findWorker s wid with
        | none =>
          simp only [applyIntent, Recon.apply, hfn, hfw]
          exact ⟨hkey, href, hinv1, hload⟩
        | some w =>
          obtain ⟨hwmem, hwid⟩ := findWorker_mem hfw
          by_cases hsame : n.worker_id = some wid
          · rw [applyIntent_assign_same hfn hfw hsame]
            refine ⟨⟨hndw, ?_⟩, ?_, ?_, ?_⟩
            · rw [map_map_eq_of_comp _ Net.id (fun m => by simp)]
              exact hndn
            · intro n' hn' wid' hwid'
              obtain ⟨m, hm, rfl⟩ := List.mem_map.mp hn'
              by_cases hmid : m.id = nid
              · rw [if_pos hmid] at hwid'
                simp at hwid'
                exact ⟨w, hwmem, by omega⟩
              · rw [if_neg hmid] at hwid'
                exact href m hm wid' hwid'
            · intro w' hw' hnr n' hn' ha
              obtain ⟨m, hm, rfl⟩ := List.mem_map.mp hn'
              by_cases hmid : m.id = nid
              · rw [if_pos hmid] at ha ⊢
                simp at ha
                have hmn : m = n :=
                  List.inj_on_of_nodup_map hndn hm hnmem (by rw [hmid, hnid])
                have hmw : m.worker_id = some w'.id := by
                  rw [hmn, hsame, ha]
                simpa using hinv1 w' hw' hnr m hm hmw
              · rw [if_neg hmid] at ha ⊢
                exact hinv1 w' hw' hnr m hm ha
            · intro n' hn' hl
              obtain ⟨m, hm, rfl⟩ := List.mem_map.mp hn'
              by_cases hmid : m.id = nid
              · rw [if_pos hmid]
                simp
              · rw [if_neg hmid] at hl ⊢
                exact hload m hm hl
          · rw [applyIntent_assign_other hfn hfw hsame]
            refine ⟨⟨hndw, ?_⟩, ?_, ?_, ?_⟩
            · rw [map_map_eq_of_comp _ Net.id (fun m => by simp)]
              exact hndn
            · intro n' hn' wid' hwid'
              obtain ⟨m, hm, rfl⟩ := List.mem_map.mp hn'
              by_cases hmid : m.id = nid
              · rw [if_pos hmid] at hwid'
                simp at hwid'
                exact ⟨w, hwmem, by omega⟩
              · rw [if_neg hmid] at hwid'
                exact href m hm wid' hwid'
            · intro w' hw' hnr n' hn' ha
              obtain ⟨m, hm, rfl⟩ := List.mem_map.mp hn'
              by_cases hmid : m.id = nid
              · rw [if_pos hmid]
              · rw [if_neg hmid] at ha ⊢
                exact hinv1 w' hw' hnr m hm ha
            · intro n' hn' hl
              obtain ⟨m, hm, rfl⟩ := List.mem_map.mp hn'
              by_cases hmid : m.id = nid
              · rw [if_pos hmid] at hl
                simp at hl
              · rw [if_neg hmid] at hl ⊢
                exact hload m hm hl
  | DeleteWorker wid =>
    cases hfw : findWorker s wid with
    | none =>
      simp only [applyIntent, Recon.apply, hfw]
      exact ⟨hkey, href, hinv1, hload⟩
    | some w =>
      rw [applyIntent_delete hfw]
      refine ⟨⟨?_, ?_⟩, ?_, ?_, ?_⟩
      · exact List.Nodup.sublist ((List.filter_sublist _).map _) hndw
      · rw [map_map_eq_of_comp _ Net.id (fun m => resetIfListed_id _ m)]
        exact hndn
      · intro n' hn' wid' hwid'
        obtain ⟨m, hm, rfl⟩ := List.mem_map.mp hn'
        by_cases hlist : (netsAssignedTo s wid).any (fun n => m.id == n.id) = true
        · simp [resetIfListed, hlist] at hwid'
        · have heq : resetIfListed (netsAssignedTo s wid) m = m := by
            simp [resetIfListed, hlist]
          rw [heq] at hwid'
          obtain ⟨v, hv, hvid⟩ := href m hm wid' hwid'
          have hmw : ¬ m.worker_id = some wid := fun hc =>
            hlist ((assigned_listed_iff hndn hm wid).mpr hc)
          have hne : wid' ≠ wid := fun he => hmw (by rw [hwid', he])
          refine ⟨v, List.mem_filter.mpr ⟨hv, ?_⟩, hvid⟩
          simp [hvid, hne]
      · intro w' hw' hnr n' hn' ha
        obtain ⟨m, hm, rfl⟩ := List.mem_map.mp hn'
        have hw'mem : w' ∈ s.workers := (List.mem_filter.mp hw').1
        by_cases hlist : (netsAssignedTo s wid).any (fun n => m.id == n.id) = true
        · simp [resetIfListed, hlist] at ha
        · have heq : resetIfListed (netsAssignedTo s wid) m = m := by
            simp [resetIfListed, hlist]
          rw [heq] at ha ⊢
          exact hinv1 w' hw'mem hnr m hm ha
      · intro n' hn' hl
        obtain ⟨m, hm, rfl⟩ := List.mem_map.mp hn'
        by_cases hlist : (netsAssignedTo s wid).any (fun n => m.id == n.id) = true
        · simp [resetIfListed, hlist] at hl
        · have heq : resetIfListed (netsAssignedTo s wid) m = m := by
            simp [resetIfListed, hlist]
          rw [heq] at hl ⊢
          exact hload m hm hl
  | SetNetLoadState nid st =>
    cases hfn : findNet s nid with
    | none =>
      simp only [applyIntent, Recon.apply, hfn]
      exact ⟨hkey, href, hinv1, hload⟩
    | some n =>
      obtain ⟨hnmem, hnid⟩ := findNet_mem hfn
      by_cases hsame : n.load_state = st
      · simp only [applyIntent, Recon.apply, hfn, if_pos hsame, commitUpdates_nil]
        exact ⟨hkey, href, hinv1, hload⟩
      · have hall : netTransitionAllowed n.load_state st = true := by
          cases hls : n.load_state <;> cases st <;> simp_all [netTransitionAllowed]
        cases st with
        | unloaded =>
          have hne : n.load_state ≠ .unloaded := hsame
          rw [applyIntent_snls_unloaded hfn hne]
          refine ⟨⟨hndw, ?_⟩, ?_, ?_, ?_⟩
          · rw [map_map_eq_of_comp _ Net.id (fun m => by simp)]
            exact hndn
          · intro n' hn' wid' hwid'
            obtain ⟨m, hm, rfl⟩ := List.mem_map.mp hn'
            rw [nload_ite_worker_id] at hwid'
            exact href m hm wid' hwid'
          · intro w' hw' hnr n' hn' ha
            obtain ⟨m, hm, rfl⟩ := List.mem_map.mp hn'
            rw [nload_ite_worker_id] at ha
            by_cases hmid : m.id = nid
            · rw [if_pos hmid]
            · rw [if_neg hmid]
              exact hinv1 w' hw' hnr m hm ha
          · intro n' hn' hl
            obtain ⟨m, hm, rfl⟩ := List.mem_map.mp hn'
            by_cases hmid : m.id = nid
            · rw [if_pos hmid] at hl
              simp at hl
            · rw [if_neg hmid] at hl ⊢
              exact hload m hm hl
        | loaded =>
          cases howner : n.worker_id with
          | none =>
            simp only [applyIntent, Recon.apply, hfn, if_neg hsame, if_pos hall, howner]
            exact ⟨hkey, href, hinv1, hload⟩
          | some wid =>
            cases hfw : findWorker s wid with
            | none =>
              simp only [applyIntent, Recon.apply, hfn, if_neg hsame, if_pos hall, howner, hfw]
              exact ⟨hkey, href, hinv1, hload⟩
            | some w =>
              obtain ⟨hwmem, hwid⟩ := findWorker_mem hfw
              by_cases hready : w.status = .ready
              · rw [applyIntent_snls_active hfn hsame hall (by simp) howner hfw hready]
                refine ⟨⟨hndw, ?_⟩, ?_, ?_, ?_⟩
                · rw [map_map_eq_of_comp _ Net.id (fun m => by simp)]
                  exact hndn
                · intro n' hn' wid' hwid'
                  obtain ⟨m, hm, rfl⟩ := List.mem_map.mp hn'
                  rw [nload_ite_worker_id] at hwid'
                  exact href m hm wid' hwid'
                · intro w' hw' hnr n' hn' ha
                  obtain ⟨m, hm, rfl⟩ := List.mem_map.mp hn'
                  rw [nload_ite_worker_id] at ha
                  by_cases hmid : m.id = nid
                  · exfalso
                    have hmn : m = n :=
                      List.inj_on_of_nodup_map hndn hm hnmem (by rw [hmid, hnid])
                    have h1 : n.worker_id = some w'.id := hmn ▸ ha
                    have hinj : wid = w'.id := Option.some.inj (howner.symm.trans h1)
                    have hww : w' = w :=
                      List.inj_on_of_nodup_map hndw hw' hwmem (by omega)
                    exact hnr (by rw [hww]; exact hready)
                  · rw [if_neg hmid]
                    exact hinv1 w' hw' hnr m hm ha
                · intro n' hn' hl
                  obtain ⟨m, hm, rfl⟩ := List.mem_map.mp hn'
                  rw [nload_ite_worker_id]
                  by_cases hmid : m.id = nid
                  · have hmn : m = n :=
                      List.inj_on_of_nodup_map hndn hm hnmem (by rw [hmid, hnid])
                    rw [hmn, howner]
                    simp
                  · rw [if_neg hmid] at hl
                    exact hload m hm hl
              · simp only [applyIntent, Recon.apply, hfn, if_neg hsame, if_pos hall, howner,
                  hfw, if_neg hready]
                exact ⟨hkey, href, hinv1, hload⟩
        | error =>
          cases howner : n.worker_id with
          | none =>
            simp only [applyIntent, Recon.apply, hfn, if_neg hsame, if_pos hall, howner]
            exact ⟨hkey, href, hinv1, hload⟩
          | some wid =>
            cases hfw : findWorker s wid with
            | none =>
              simp only [applyIntent, Recon.apply, hfn, if_neg hsame, if_pos hall, howner, hfw]
              exact ⟨hkey, href, hinv1, hload⟩
            | some w =>
              by_cases hready : w.status = .ready
              · rw [applyIntent_snls_active hfn hsame hall (by simp) howner hfw hready]
                refine ⟨⟨hndw, ?_⟩, ?_, ?_, ?_⟩
                · rw [map_map_eq_of_comp _ Net.id (fun m => by simp)]
                  exact hndn
                · intro n' hn' wid' hwid'
                  obtain ⟨m, hm, rfl⟩ := List.mem_map.mp hn'
                  rw [nload_ite_worker_id] at hwid'
                  exact href m hm wid' hwid'
                · intro w' hw' hnr n' hn' ha
                  obtain ⟨m, hm, rfl⟩ := List.mem_map.mp hn'
                  rw [nload_ite_worker_id] at ha
                  by_cases hmid : m.id = nid
                  · exfalso
                    obtain ⟨hwmem, hwid⟩ := findWorker_mem hfw
                    have hmn : m = n :=
                      List.inj_on_of_nodup_map hndn hm hnmem (by rw [hmid, hnid])
                    have h1 : n.worker_id = some w'.id := hmn ▸ ha
                    have hinj : wid = w'.id := Option.some.inj (howner.symm.trans h1)
                    have hww : w' = w :=
                      List.inj_on_of_nodup_map hndw hw' hwmem (by omega)
                    exact hnr (by rw [hww]; exact hready)
                  · rw [if_neg hmid]
                    exact hinv1 w' hw' hnr m hm ha
                · intro n' hn' hl
                  obtain ⟨m, hm, rfl⟩ := List.mem_map.mp hn'
                  by_cases hmid : m.id = nid
                  · rw [if_pos hmid] at hl
                    simp at hl
                  · rw [if_neg hmid] at hl ⊢
                    exact hload m hm hl
              · simp only [applyIntent, Recon.apply, hfn, if_neg hsame, if_pos hall, howner,
                  hfw, if_neg hready]
                exact ⟨hkey, href, hinv1, hload⟩

/-! ## Claim C1 -/

/-- C1: for every sequence of intents applied through ReconciliationRules,
after each committed transaction (i.e. after any prefix of the sequence)
the invariants of the data model hold; in particular every worker with
status ≠ ready has only unloaded assigned nets (Invariant 1), and a
load_state = loaded value exists only while the owning worker exists and
has status = ready (Invariant 4). -/
theorem c1_invariant_preservation (s0 : StoreState) (intents : List Intent)
    (h0 : Inv s0) (k : Nat) :
    Inv (runIntents s0 (intents.take k)) ∧
    Inv1 (runIntents s0 (intents.take k)) ∧
    Inv4 (runIntents s0 (intents.take k)) := by
  have main : ∀ (l : List Intent) (s : StoreState), Inv s → Inv (runIntents s l) := by
    intro l
    induction l with
    | nil => intro s hs; exact hs
    | cons i l ih =>
      intro s hs
      exact ih _ (inv_applyIntent hs i)
  have h := main (intents.take k) s0 h0
  exact ⟨h, h.2.2.1, inv4_of_inv h⟩

instance (s : StoreState) : Decidable (Inv s) := by
  unfold Inv WellKeyed InvRef Inv1 InvLoadedAssigned
  infer_instance

/-- A concrete store: one ready persistent worker owning one loaded net and
one unloaded net, plus an unassigned net. -/
def exState : StoreState :=
  { workers := [{ id := 1, category := .persistent, status := .ready, detail := none }],
    nets := [{ id := 10, worker_id := some 1, load_state := .loaded },
             { id := 11, worker_id := some 1, load_state := .unloaded },
             { id := 12, worker_id := none, load_state := .unloaded }] }

def exIntents : List Intent :=
  [Intent.SetWorkerStatus 1 .error (some .unreachable), Intent.DeleteWorker 1]

theorem c1_invariant_preservation_witness :
    Inv exState ∧
      (Inv (runIntents exState (exIntents.take 1)) ∧
       Inv1 (runIntents exState (exIntents.take 1)) ∧
       Inv4 (runIntents exState (exIntents.take 1))) :=
  ⟨by decide, c1_invariant_preservation exState exIntents (by decide) 1⟩

/-! ## Claim C8 -/

/-- C8: applying AssignNet(net, null) twice in a row produces the same
final state as applying it once; and for AssignNet to a different worker
or to null, the rules emit SetNetLoadState(net, unloaded) unconditionally,
with no inspection of the current load_state (so also when the net is
already unloaded). -/
theorem c8_assign_idempotent_unconditional_unload :
    (∀ (s : StoreState) (nid : Nat),
      applyIntent (applyIntent s (.AssignNet nid none)) (.AssignNet nid none) =
        applyIntent s (.AssignNet nid none)) ∧
    (∀ (s : StoreState) (nid : Nat) (n : Net), findNet s nid = some n →
      (Recon.apply s (.AssignNet nid none) =
        .ok [Update.netAssign nid none, Update.netLoadState nid .unloaded]) ∧
      (∀ (wid : Nat) (w : Worker), findWorker s wid = some w → n.worker_id ≠ some wid →
        Recon.apply s (.AssignNet nid (some wid)) =
          .ok [Update.netAssign nid (some wid), Update.netLoadState nid .unloaded])) := by
  constructor
  · intro s nid
    cases hfn : findNet s nid with
    | none =>
      have hs : applyIntent s (.AssignNet nid none) = s := by
        simp [applyIntent, Recon.apply, hfn]
      rw [hs, hs]
    | some n =>
      have h1 := applyIntent_assign_none hfn
      have hcomp : ((fun m : Net => m.id == nid) ∘
          (fun m : Net =>
            if m.id = nid then { m with worker_id := none, load_state := .unloaded } else m)) =
          (fun m : Net => m.id == nid) := by
        funext m
        simp only [Function.comp]
        by_cases hmid : m.id = nid <;> simp [hmid]
      have hfn' : s.nets.find? (fun m => m.id == nid) = some n := hfn
      have hnid : n.id = nid := (findNet_mem hfn).2
      have hfn2 : findNet (applyIntent s (.AssignNet nid none)) nid =
          some { n with worker_id := none, load_state := .unloaded } := by
        rw [h1]
        unfold findNet
        dsimp only
        rw [List.find?_map, hcomp, hfn']
        simp [hnid]
      rw [applyIntent_assign_none hfn2, h1]
      congr 1
      rw [List.map_map]
      apply List.map_congr_left
      intro m _
      simp only [Function.comp]
      by_cases hmid : m.id = nid <;> simp [hmid]
  · intro s nid n hfn
    constructor
    · simp [Recon.apply, hfn]
    · intro wid w hfw hdiff
      simp [Recon.apply, hfn, hfw, hdiff]

theorem c8_assign_idempotent_unconditional_unload_witness :
    (findNet exState 10 = some { id := 10, worker_id := some 1, load_state := .loaded }) ∧
    (Recon.apply exState (.AssignNet 10 none) =
      .ok [Update.netAssign 10 none, Update.netLoadState 10 .unloaded]) := by
  refine ⟨by decide, ?_⟩
  exact (c8_assign_idempotent_unconditional_unload.2 exState 10
    { id := 10, worker_id := some 1, load_state := .loaded } (by decide)).1

/-! ## NotificationPublisher and SharedEventListener (modelled from the spec) -/

inductive EventType
  | worker_state_changed
  | net_state_changed
  deriving DecidableEq, Repr

structure EventMsg where
  etype : EventType
  entity_id : Nat
  owner_identity : Nat
  deriving DecidableEq, Repr

/-- Modelled from the spec: NotificationPublisher stages one event per
changed entity of the update list (spec section 4.2), carrying the owner
identity for listener-side filtering. -/
def stageEvents (owner : Nat) (us : List Update) : List EventMsg :=
  us.map (fun u =>
    match u with
    | .workerStatus wid _ _ => { etype := .worker_state_changed, entity_id := wid,
                                 owner_identity := owner }
    | .workerDelete wid => { etype := .worker_state_changed, entity_id := wid,
                             owner_identity := owner }
    | .netAssign nid _ => { etype := .net_state_changed, entity_id := nid,
                            owner_identity := owner }
    | .netLoadState nid _ => { etype := .net_state_changed, entity_id := nid,
                               owner_identity := owner })

inductive TxOutcome
  | committed
  | aborted
  deriving DecidableEq, Repr

/-- Modelled from the spec: NotificationPublisher.commit (spec section 4.2,
not implemented under src).  Updates are applied and events staged inside
one transaction; the staged events are delivered to the SharedEventListener
only after the transaction commits (publish-after-commit, the Postgres
NOTIFY-is-transactional property of BACKEND_COMS.md).  If the transaction
aborts, no update is applied and no event is delivered. -/
def publisherCommit (s : StoreState) (owner : Nat) (us : List Update)
    (outcome : TxOutcome) : StoreState × List EventMsg :=
  match outcome with
  | .committed => (commitUpdates s us, stageEvents owner us)
  | .aborted => (s, [])

/-- Modelled from the spec: SharedEventListener fan-out (spec section 4.3):
a subscriber queue receives exactly the delivered events whose
owner_identity matches the subscriber identity. -/
def observedBy (identity : Nat) (delivered : List EventMsg) : List EventMsg :=
  delivered.filter (fun e => e.owner_identity == identity)

/-! ## Claim C2 -/

/-- C2: an event is observable by a subscriber if and only if the enclosing
storage transaction committed (and the event was staged for that subscriber
identity); a transaction that aborts after staging updates emits zero
events and commits no partial cascade of updates. -/
theorem c2_transactional_visibility :
    (∀ (s : StoreState) (owner : Nat) (us : List Update),
      (publisherCommit s owner us .aborted).2 = [] ∧
      (publisherCommit s owner us .aborted).1 = s) ∧
    (∀ (s : StoreState) (owner identity : Nat) (us : List Update)
       (outcome : TxOutcome) (e : EventMsg),
      e ∈ observedBy identity (publisherCommit s owner us outcome).2 ↔
        outcome = .committed ∧ e ∈ stageEvents owner us ∧ e.owner_identity = identity) := by
  constructor
  · intro s owner us
    exact ⟨rfl, rfl⟩
  · intro s owner identity us outcome e
    cases outcome with
    | committed =>
      simp [observedBy, publisherCommit, List.mem_filter, and_assoc]
    | aborted =>
      simp [observedBy, publisherCommit]

theorem c2_transactional_visibility_witness :
    ((publisherCommit exState 5 [Update.netLoadState 10 .unloaded] .aborted).2 = [] ∧
     (publisherCommit exState 5 [Update.netLoadState 10 .unloaded] .aborted).1 = exState) ∧
    (({ etype := .net_state_changed, entity_id := 10, owner_identity := 5 } : EventMsg) ∈
        observedBy 5 (publisherCommit exState 5 [Update.netLoadState 10 .unloaded] .committed).2 ↔
      TxOutcome.committed = .committed ∧
      ({ etype := .net_state_changed, entity_id := 10, owner_identity := 5 } : EventMsg) ∈
        stageEvents 5 [Update.netLoadState 10 .unloaded] ∧
      (5 : Nat) = 5) :=
  ⟨c2_transactional_visibility.1 exState 5 [Update.netLoadState 10 .unloaded],
   c2_transactional_visibility.2 exState 5 5 [Update.netLoadState 10 .unloaded] .committed _⟩

/-! ## EventSubscriptionEndpoint stream registry (modelled from the spec) -/

structure ListenerRegistry where
  registry : List (Nat × Nat)
  closed : List Nat
  nextId : Nat
  deriving DecidableEq, Repr

inductive StreamOp
  | openStream (identity : Nat)
  | closeStream (sid : Nat)
  deriving DecidableEq, Repr

/-- Modelled from the spec: EventSubscriptionEndpoint stream lifecycle
(spec section 4.4; BACKEND_COMS.md "limit to 1 concurrent SSE connection
per user (close the old one if a new one opens)").  Opening a stream for
an identity closes any stream already registered for that identity and
registers a fresh one; closing a stream deregisters it. -/
def streamStep (st : ListenerRegistry) : StreamOp → ListenerRegistry
  | .openStream i =>
    { registry := st.registry.filter (fun p => p.1 ≠ i) ++ [(i, st.nextId)],
      closed := st.closed ++ (st.registry.filter (fun p => p.1 = i)).map Prod.snd,
      nextId := st.nextId + 1 }
  | .closeStream sid =>
    { registry := st.registry.filter (fun p => p.2 ≠ sid),
      closed := st.closed ++ (st.registry.filter (fun p => p.2 = sid)).map Prod.snd,
      nextId := st.nextId }

def initRegistry : ListenerRegistry :=
  { registry := [], closed := [], nextId := 0 }

def streamRun (st : ListenerRegistry) (ops : List StreamOp) : ListenerRegistry :=
  ops.foldl streamStep st

/-- Registry sanity: at most one live queue per identity, stream ids are
unique, no registered stream has been closed, and ids are bounded by the
fresh-id counter. -/
def RegInv (st : ListenerRegistry) : Prop :=
  (st.registry.map Prod.fst).Nodup ∧
  (st.registry.map Prod.snd).Nodup ∧
  (∀ p ∈ st.registry, p.2 ∉ st.closed ∧ p.2 < st.nextId) ∧
  (∀ c ∈ st.closed, c < st.nextId)

theorem regInv_step {st : ListenerRegistry} (h : RegInv st) (op : StreamOp) :
    RegInv (streamStep st op) := by
  obtain ⟨hfst, hsnd, hent, hcl⟩ := h
  cases op with
  | openStream i =>
    simp only [streamStep]
    refine ⟨?_, ?_, ?_, ?_⟩
    · rw [List.map_append, List.nodup_append]
      refine ⟨List.Nodup.sublist ((List.filter_sublist _).map _) hfst, by simp, ?_⟩
      intro x hx
      obtain ⟨p, hp, rfl⟩ := List.mem_map.mp hx
      have := (List.mem_filter.mp hp).2
      simp only [decide_not, Bool.not_eq_eq_eq_not, Bool.not_true, decide_eq_false_iff_not] at this
      simp [this]
    · rw [List.map_append, List.nodup_append]
      refine ⟨List.Nodup.sublist ((List.filter_sublist _).map _) hsnd, by simp, ?_⟩
      intro x hx
      obtain ⟨p, hp, rfl⟩ := List.mem_map.mp hx
      have hlt := (hent p (List.mem_filter.mp hp).1).2
      simp only [List.map_cons, List.map_nil, List.mem_singleton]
      omega
    · intro p hp
      rcases List.mem_append.mp hp with hp1 | hp1
      · obtain ⟨hpmem, hpne⟩ := List.mem_filter.mp hp1
        simp only [decide_not, Bool.not_eq_eq_eq_not, Bool.not_true,
          decide_eq_false_iff_not] at hpne
        obtain ⟨hncl, hlt⟩ := hent p hpmem
        refine ⟨?_, by simp; omega⟩
        intro hc
        rcases List.mem_append.mp hc with hc1 | hc1
        · exact hncl hc1
        · obtain ⟨q, hq, hqp⟩ := List.mem_map.mp hc1
          obtain ⟨hqmem, hqi⟩ := List.mem_filter.mp hq
          have hpq : q = p := List.inj_on_of_nodup_map hsnd hqmem hpmem hqp
          rw [hpq] at hqi
          simp only [decide_eq_true_eq] at hqi
          exact hpne hqi
      · simp only [List.mem_singleton] at hp1
        subst hp1
        refine ⟨?_, by simp⟩
        intro hc
        rcases List.mem_append.mp hc with hc1 | hc1
        · exact absurd (hcl _ hc1) (by simp)
        · obtain ⟨q, hq, hqp⟩ := List.mem_map.mp hc1
          have hlt := (hent q (List.mem_filter.mp hq).1).2
          simp only [hqp] at hlt
          omega
    · intro c hc
      rcases List.mem_append.mp hc with hc1 | hc1
      · have := hcl c hc1; simp; omega
      · obtain ⟨q, hq, hqp⟩ := List.mem_map.mp hc1
        have := (hent q (List.mem_filter.mp hq).1).2
        simp only [hqp] at this
        simp
        omega
  | closeStream sid =>
    simp only [streamStep]
    refine ⟨?_, ?_, ?_, ?_⟩
    · exact List.Nodup.sublist ((List.filter_sublist _).map _) hfst
    · exact List.Nodup.sublist ((List.filter_sublist _).map _) hsnd
    · intro p hp
      obtain ⟨hpmem, hpne⟩ := List.mem_filter.mp hp
      simp only [decide_not, Bool.not_eq_eq_eq_not, Bool.not_true,
        decide_eq_false_iff_not] at hpne
      obtain ⟨hncl, hlt⟩ := hent p hpmem
      refine ⟨?_, hlt⟩
      intro hc
      rcases List.mem_append.mp hc with hc1 | hc1
      · exact hncl hc1
      · obtain ⟨q, hq, hqp⟩ := List.mem_map.mp hc1
        have hqs := (List.mem_filter.mp hq).2
        simp only [decide_eq_true_eq] at hqs
        exact hpne (by rw [← hqp, hqs])
    · intro c hc
      rcases List.mem_append.mp hc with hc1 | hc1
      · exact hcl c hc1
      · obtain ⟨q, hq, hqp⟩ := List.mem_map.mp hc1
        have := (hent q (List.mem_filter.mp hq).1).2
        simpa [hqp] using this

/-! ## Claim C6 -/

/-- C6: for every identity at most one live event stream exists at any
time (the identities registered in the listener registry are pairwise
distinct after any sequence of open/close operations), and opening a
second stream for an identity closes the first: after openStream i the
only registered stream for i is the freshly opened one, and every stream
previously registered for i has been closed server-side. -/
theorem c6_one_stream_per_identity :
    (∀ ops : List StreamOp, RegInv (streamRun initRegistry ops)) ∧
    (∀ (st : ListenerRegistry) (i : Nat),
      ((streamStep st (.openStream i)).registry.filter (fun p => p.1 = i) =
        [(i, st.nextId)]) ∧
      (∀ p ∈ st.registry, p.1 = i → p.2 ∈ (streamStep st (.openStream i)).closed)) := by
  constructor
  · intro ops
    have main : ∀ (l : List StreamOp) (st : ListenerRegistry),
        RegInv st → RegInv (streamRun st l) := by
      intro l
      induction l with
      | nil => intro st hst; exact hst
      | cons op l ih => intro st hst; exact ih _ (regInv_step hst op)
    apply main
    refine ⟨by simp [initRegistry], by simp [initRegistry], ?_, ?_⟩
    · intro p hp; simp [initRegistry] at hp
    · intro c hc; simp [initRegistry] at hc
  · intro st i
    constructor
    · show (st.registry.filter (fun p => p.1 ≠ i) ++ [(i, st.nextId)]).filter
        (fun p => p.1 = i) = [(i, st.nextId)]
      rw [List.filter_append, List.filter_filter]
      have h1 : st.registry.filter (fun p => decide (p.1 = i) && decide (p.1 ≠ i)) = [] := by
        apply List.filter_eq_nil_iff.mpr
        intro p hp
        by_cases hpi : p.1 = i <;> simp [hpi]
      rw [h1]
      simp
    · intro p hp hpi
      show p.2 ∈ st.closed ++ (st.registry.filter (fun q => q.1 = i)).map Prod.snd
      apply List.mem_append.mpr
      right
      exact List.mem_map.mpr ⟨p, List.mem_filter.mpr ⟨hp, by simp [hpi]⟩, rfl⟩

theorem c6_one_stream_per_identity_witness :
    RegInv (streamRun initRegistry
      [StreamOp.openStream 7, StreamOp.openStream 7, StreamOp.closeStream 1]) ∧
    ((streamStep (streamRun initRegistry [StreamOp.openStream 7])
        (.openStream 7)).registry.filter (fun p => p.1 = 7) =
      [(7, (streamRun initRegistry [StreamOp.openStream 7]).nextId)]) :=
  ⟨c6_one_stream_per_identity.1
      [StreamOp.openStream 7, StreamOp.openStream 7, StreamOp.closeStream 1],
   (c6_one_stream_per_identity.2 (streamRun initRegistry [StreamOp.openStream 7]) 7).1⟩

/-! ## HealthCheckScheduler probe batching (modelled from the spec) -/

def PROBE_TIMEOUT_MS : Nat := 5000

def PROBE_CONCURRENCY_CAP : Nat := 20

structure Probe where
  worker_id : Nat
  timeout_ms : Nat
  deriving DecidableEq, Repr

/-- Group a probe list into consecutive batches of at most `k` probes. -/
def chunkAux (k : Nat) : List Probe → List Probe → List (List Probe)
  | acc, [] => if acc.isEmpty then [] else [acc]
  | acc, a :: rest =>
    if acc.length + 1 = k then (acc ++ [a]) :: chunkAux k [] rest
    else chunkAux k (acc ++ [a]) rest

def chunkProbes (k : Nat) (l : List Probe) : List (List Probe) :=
  chunkAux k [] l

/-- Modelled from the spec: one HealthCheckScheduler cycle (spec section
4.5; BACKEND_COMS.md "Background Health Check Loop", not implemented under
src).  Every ready worker gets one probe under the fixed 5-second timeout;
the probes run concurrently but the semaphore caps the number in flight at
20, which we model as executing the probe list in consecutive batches of
at most 20. -/
def healthCheckBatches (readyWorkers : List Nat) : List (List Probe) :=
  chunkProbes PROBE_CONCURRENCY_CAP
    (readyWorkers.map (fun w => { worker_id := w, timeout_ms := PROBE_TIMEOUT_MS }))

theorem chunkAux_spec {k : Nat} (hk : 1 ≤ k) :
    ∀ (rest acc : List Probe), acc.length < k →
      ∀ b ∈ chunkAux k acc rest, b.length ≤ k ∧ ∀ p ∈ b, p ∈ acc ∨ p ∈ rest := by
  intro rest
  induction rest with
  | nil =>
    intro acc hacc b hb
    simp only [chunkAux] at hb
    split at hb
    · simp at hb
    · simp only [List.mem_singleton] at hb
      subst hb
      exact ⟨Nat.le_of_lt hacc, fun p hp => Or.inl hp⟩
  | cons a rest ih =>
    intro acc hacc b hb
    simp only [chunkAux] at hb
    split at hb
    · rename_i hfull
      rcases List.mem_cons.mp hb with hb1 | hb1
      · subst hb1
        refine ⟨by simp; omega, ?_⟩
        intro p hp
        rcases List.mem_append.mp hp with h | h
        · exact Or.inl h
        · simp only [List.mem_singleton] at h
          subst h
          exact Or.inr (List.mem_cons_self _ _)
      · obtain ⟨h1, h2⟩ := ih [] hk b hb1
        refine ⟨h1, fun p hp => ?_⟩
        rcases h2 p hp with h | h
        · simp at h
        · exact Or.inr (List.mem_cons_of_mem _ h)
    · rename_i hfull
      have hlen : (acc ++ [a]).length < k := by
        simp
        omega
      obtain ⟨h1, h2⟩ := ih (acc ++ [a]) hlen b hb
      refine ⟨h1, fun p hp => ?_⟩
      rcases h2 p hp with h | h
      · rcases List.mem_append.mp h with h3 | h3
        · exact Or.inl h3
        · simp only [List.mem_singleton] at h3
          subst h3
          exact Or.inr (List.mem_cons_self _ _)
      · exact Or.inr (List.mem_cons_of_mem _ h)

/-! ## Claim C7 -/

/-- C7: in every health-check cycle, regardless of how many ready workers
exist, no batch of concurrently running probes exceeds the fixed
parallelism bound of 20, and every probe carries the fixed 5000ms
timeout. -/
theorem c7_probe_cap_and_timeout (readyWorkers : List Nat) (b : List Probe)
    (hb : b ∈ healthCheckBatches readyWorkers) :
    b.length ≤ 20 ∧ ∀ p ∈ b, p.timeout_ms = 5000 := by
  have h := chunkAux_spec (k := PROBE_CONCURRENCY_CAP) (by decide)
    (readyWorkers.map (fun w => { worker_id := w, timeout_ms := PROBE_TIMEOUT_MS })) []
    (by decide) b hb
  refine ⟨h.1, ?_⟩
  intro p hp
  rcases h.2 p hp with hmem | hmem
  · simp at hmem
  · obtain ⟨w, hw, rfl⟩ := List.mem_map.mp hmem
    rfl

theorem c7_probe_cap_and_timeout_witness :
    ((List.range 20).map (fun w => Probe.mk w 5000) ∈ healthCheckBatches (List.range 100)) ∧
    (((List.range 20).map (fun w => Probe.mk w 5000)).length ≤ 20 ∧
      ∀ p ∈ (List.range 20).map (fun w => Probe.mk w 5000), p.timeout_ms = 5000) :=
  ⟨by decide,
   c7_probe_cap_and_timeout (List.range 100) ((List.range 20).map (fun w => Probe.mk w 5000))
     (by decide)⟩

/-! ## ClientStateCache SSE debounce (embedded from src/unnamed/part_009) -/

def SSE_DEBOUNCE_MS : Nat := 500

/-- Embeds the SSE subscription handler of the workers page
(src/unnamed/part_009, sseDebounceTimer): every incoming event clears the
pending timer and schedules refreshAll 500ms later, so refreshAll fires at
t + 500 exactly when no further event arrives strictly before t + 500.
Input: the strictly increasing arrival times of the events; output: the
times at which refreshAll fires. -/
def debounceRefreshTimes : List Nat → List Nat
  | [] => []
  | [t] => [t + SSE_DEBOUNCE_MS]
  | t :: t2 :: rest =>
    if t2 < t + SSE_DEBOUNCE_MS then debounceRefreshTimes (t2 :: rest)
    else (t + SSE_DEBOUNCE_MS) :: debounceRefreshTimes (t2 :: rest)

/-! ## Claim C3 -/

/-- C3: for every burst of push events whose consecutive gaps are all
below 500ms, the debounced handler issues exactly one refresh, fired
500ms after the last event of the burst. -/
theorem c3_debounce_single_refresh (t0 : Nat) (ts : List Nat)
    (hburst : List.Chain (fun a b => a < b ∧ b < a + SSE_DEBOUNCE_MS) t0 ts) :
    debounceRefreshTimes (t0 :: ts) = [ts.getLastD t0 + SSE_DEBOUNCE_MS] := by
  induction ts generalizing t0 with
  | nil => rfl
  | cons t1 ts ih =>
    rcases hburst with _ | ⟨⟨hlt, hgap⟩, hchain⟩
    rw [List.getLastD_cons]
    show (if t1 < t0 + SSE_DEBOUNCE_MS then debounceRefreshTimes (t1 :: ts)
      else (t0 + SSE_DEBOUNCE_MS) :: debounceRefreshTimes (t1 :: ts)) = _
    rw [if_pos hgap]
    exact ih t1 hchain

theorem c3_debounce_single_refresh_witness :
    List.Chain (fun a b => a < b ∧ b < a + SSE_DEBOUNCE_MS) 0 [50, 100, 150, 200] ∧
    debounceRefreshTimes [0, 50, 100, 150, 200] = [700] := by
  have hchain : List.Chain (fun a b => a < b ∧ b < a + SSE_DEBOUNCE_MS) 0 [50, 100, 150, 200] := by
    simp [List.chain_cons, SSE_DEBOUNCE_MS]
  exact ⟨hchain, c3_debounce_single_refresh 0 [50, 100, 150, 200] hchain⟩

/-! ## SSE reconnection (embedded from src/frontend/src/lib/stores/serverEvents.ts) -/

def INITIAL_RECONNECT_DELAY : Nat := 1000

def MAX_RECONNECT_DELAY : Nat := 30000

structure SSEState where
  reconnectDelay : Nat
  pendingTimer : Option Nat
  esOpen : Bool
  deriving DecidableEq, Repr

inductive SSEEvent
  | connectCall
  | openOk
  | errorClosed
  | timerFire
  deriving DecidableEq, Repr

/-- Embeds serverEvents.ts: `connectCall` is connectSSE() (cleanup, then
`reconnectDelay = 1000`, then a fresh EventSource); `openOk` is the onopen
handler (`reconnectDelay = 1000`); `errorClosed` is onerror observing
readyState CLOSED (schedules a reconnect via setTimeout with the current
reconnectDelay, then doubles reconnectDelay capped at 30000); `timerFire`
is the scheduled timer running its callback, which calls connectSSE(). -/
def sseStep (st : SSEState) : SSEEvent → SSEState
  | .connectCall =>
    { reconnectDelay := INITIAL_RECONNECT_DELAY, pendingTimer := none, esOpen := true }
  | .openOk =>
    if st.esOpen then { st with reconnectDelay := INITIAL_RECONNECT_DELAY } else st
  | .errorClosed =>
    if st.esOpen then
      { reconnectDelay := min (st.reconnectDelay * 2) MAX_RECONNECT_DELAY,
        pendingTimer := some st.reconnectDelay,
        esOpen := false }
    else st
  | .timerFire =>
    match st.pendingTimer with
    | some _ =>
      { reconnectDelay := INITIAL_RECONNECT_DELAY, pendingTimer := none, esOpen := true }
    | none => st

def initSSE : SSEState :=
  { reconnectDelay := INITIAL_RECONNECT_DELAY, pendingTimer := none, esOpen := false }

/-- The delays passed to setTimeout for the automatic reconnection
attempts scheduled while processing the given event sequence. -/
def scheduledDelays (st : SSEState) : List SSEEvent → List Nat
  | [] => []
  | e :: es =>
    match e with
    | .errorClosed =>
      if st.esOpen then st.reconnectDelay :: scheduledDelays (sseStep st e) es
      else scheduledDelays (sseStep st e) es
    | _ => scheduledDelays (sseStep st e) es

/-! ## Claim C9 -/

/-- C9 is false of the code: because connectSSE() resets reconnectDelay to
1000 at the start of every attempt — including the attempts triggered by
the reconnect timer itself — the doubling performed by scheduleReconnect is
always overwritten before it can be used, and the delay before every
automatic reconnection attempt is 1000ms.  In particular, in the trace
connect / error / timer fires / error again, the two scheduled delays are
1000 and 1000, where the claimed doubling would give 1000 then 2000. -/
theorem c9_reconnect_delay_never_doubles :
    (scheduledDelays initSSE
      [.connectCall, .errorClosed, .timerFire, .errorClosed] = [1000, 1000]) ∧
    (∀ evs : List SSEEvent,
      (scheduledDelays initSSE evs).all (fun d => d == 1000) = true) := by
  constructor
  · rfl
  · have main : ∀ (evs : List SSEEvent) (st : SSEState),
        (st.esOpen = true → st.reconnectDelay = 1000) →
        ∀ d ∈ scheduledDelays st evs, d = 1000 := by
      intro evs
      induction evs with
      | nil => intro st hst d hd; simp [scheduledDelays] at hd
      | cons e es ih =>
        intro st hst d hd
        have hstep : (sseStep st e).esOpen = true → (sseStep st e).reconnectDelay = 1000 := by
          cases e with
          | connectCall => intro _; rfl
          | openOk =>
            by_cases h : st.esOpen = true <;> simp [sseStep, h, INITIAL_RECONNECT_DELAY]
          | errorClosed =>
            by_cases h : st.esOpen = true <;> simp [sseStep, h]
          | timerFire =>
            cases hp : st.pendingTimer <;> simp [sseStep, hp, INITIAL_RECONNECT_DELAY]
            exact hst
        cases e with
        | errorClosed =>
          simp only [scheduledDelays] at hd
          by_cases h : st.esOpen = true
          · rw [if_pos h] at hd
            rcases List.mem_cons.mp hd with hd1 | hd1
            · rw [hd1]; exact hst h
            · exact ih _ hstep d hd1
          · rw [if_neg h] at hd
            exact ih _ hstep d hd
        | connectCall => exact ih _ hstep d hd
        | openOk => exact ih _ hstep d hd
        | timerFire => exact ih _ hstep d hd
    intro evs
    apply List.all_eq_true.mpr
    intro d hd
    have := main evs initSSE (fun _ => rfl) d hd
    simp [this]

/-! ## Pre-action verification handlers (embedded from src/unnamed/part_009) -/

inductive ServerCall
  | stopWorker (id : Nat)
  | startWorker (id : Nat)
  | destroyWorkerResource (id : Nat)
  | loadNet (id : Nat)
  | unloadNet (id : Nat)
  | patchNetAssign (netId : Nat) (workerId : Nat)
  deriving DecidableEq, Repr

inductive UICommand
  | stop (workerId : Nat)
  | start (workerId : Nat)
  | destroy (workerId : Nat)
  | load (netId : Nat)
  | unload (netId : Nat)
  | assign (workerId : Nat) (netId : Nat)
  deriving DecidableEq, Repr

def statusName : WorkerStatus → String
  | .pending => "pending"
  | .provisioning => "provisioning"
  | .ready => "ready"
  | .stopped => "stopped"
  | .error => "error"

/-- The error message of checkWorkerState / handleStart /
handleDestroyResource: it surfaces the freshly observed status. -/
def workerStateChangedMsg (w : Option Worker) : String :=
  "Worker state has changed - it is now " ++
    (match w with | some w => statusName w.status | none => "unknown") ++
    ". Please review before retrying."

def workerNotReadyMsg (w : Option Worker) (verb : String) : String :=
  "Worker is not ready (status: " ++
    (match w with | some w => statusName w.status | none => "unknown") ++
    "). Cannot " ++ verb ++ " net."

/-- Embeds checkWorkerState of the workers page: after re-fetching, the
worker must exist and still have the expected status. -/
def checkWorkerState (snap : StoreState) (workerId : Nat) (expected : WorkerStatus) : Bool :=
  match findWorker snap workerId with
  | some w => w.status == expected
  | none => false

/-- Embeds handleStop: pre-check that the worker is still ready, then call
stopWorker; on a failed check, set the error message and make no call. -/
def handleStop (snap : StoreState) (workerId : Nat) : List ServerCall × Option String :=
  if checkWorkerState snap workerId .ready then ([ServerCall.stopWorker workerId], none)
  else ([], some (workerStateChangedMsg (findWorker snap workerId)))

/-- Embeds handleStart: the re-fetched worker may be started when its
status is stopped, or error with status_detail machine_stopped. -/
def handleStart (snap : StoreState) (workerId : Nat) : List ServerCall × Option String :=
  let worker := findWorker snap workerId
  let canStart : Bool := match worker with
    | some w =>
        w.status == .stopped || (w.status == .error && w.detail == some .machine_stopped)
    | none => false
  if canStart then ([ServerCall.startWorker workerId], none)
  else ([], some (workerStateChangedMsg worker))

/-- Embeds handleDestroyResource: the re-fetched worker must be ready or
stopped. -/
def handleDestroyResource (snap : StoreState) (workerId : Nat) :
    List ServerCall × Option String :=
  match findWorker snap workerId with
  | some w =>
    if w.status == .ready || w.status == .stopped then
      ([ServerCall.destroyWorkerResource workerId], none)
    else ([], some (workerStateChangedMsg (some w)))
  | none => ([], some (workerStateChangedMsg none))

/-- Embeds handleLoadNet / checkNetForLoad: the net must exist, not
already be loaded, and its assigned worker must exist and be ready. -/
def handleLoadNet (snap : StoreState) (netId : Nat) : List ServerCall × Option String :=
  match findNet snap netId with
  | none => ([], some "Net no longer exists.")
  | some net =>
    if net.load_state == .loaded then ([], some "Net is already loaded.")
    else
      let worker := match net.worker_id with
        | some wid => findWorker snap wid
        | none => none
      match worker with
      | some w =>
        if w.status == .ready then ([ServerCall.loadNet netId], none)
        else ([], some (workerNotReadyMsg (some w) "load"))
      | none => ([], some (workerNotReadyMsg none "load"))

/-- Embeds handleUnloadNet / checkNetForUnload: the net must exist, be
currently loaded, and its assigned worker must exist and be ready. -/
def handleUnloadNet (snap : StoreState) (netId : Nat) : List ServerCall × Option String :=
  match findNet snap netId with
  | none => ([], some "Net no longer exists.")
  | some net =>
    if net.load_state != .loaded then ([], some "Net is not currently loaded.")
    else
      let worker := match net.worker_id with
        | some wid => findWorker snap wid
        | none => none
      match worker with
      | some w =>
        if w.status == .ready then ([ServerCall.unloadNet netId], none)
        else ([], some (workerNotReadyMsg (some w) "unload"))
      | none => ([], some (workerNotReadyMsg none "unload"))

/-- Embeds handleAssignNet: the re-fetched net must exist and be
unassigned. -/
def handleAssignNet (snap : StoreState) (workerId netId : Nat) :
    List ServerCall × Option String :=
  match findNet snap netId with
  | none => ([], some "Net is no longer available for assignment.")
  | some net =>
    match net.worker_id with
    | some _ => ([], some "Net is no longer available for assignment.")
    | none => ([ServerCall.patchNetAssign netId workerId], none)

/-- The handler dispatch: every state-changing command re-fetches and
checks before any server call. -/
def preActionHandler (snap : StoreState) : UICommand → List ServerCall × Option String
  | .stop wid => handleStop snap wid
  | .start wid => handleStart snap wid
  | .destroy wid => handleDestroyResource snap wid
  | .load nid => handleLoadNet snap nid
  | .unload nid => handleUnloadNet snap nid
  | .assign wid nid => handleAssignNet snap wid nid

/-- The state the UI assumed for each command, as re-checked against the
fresh snapshot. -/
def assumedState (snap : StoreState) : UICommand → Prop
  | .stop wid => ∃ w, findWorker snap wid = some w ∧ w.status = .ready
  | .start wid => ∃ w, findWorker snap wid = some w ∧
      (w.status = .stopped ∨ (w.status = .error ∧ w.detail = some .machine_stopped))
  | .destroy wid => ∃ w, findWorker snap wid = some w ∧
      (w.status = .ready ∨ w.status = .stopped)
  | .load nid => ∃ n, findNet snap nid = some n ∧ n.load_state ≠ .loaded ∧
      ∃ wid w, n.worker_id = some wid ∧ findWorker snap wid = some w ∧ w.status = .ready
  | .unload nid => ∃ n, findNet snap nid = some n ∧ n.load_state = .loaded ∧
      ∃ wid w, n.worker_id = some wid ∧ findWorker snap wid = some w ∧ w.status = .ready
  | .assign _ nid => ∃ n, findNet snap nid = some n ∧ n.worker_id = none

/-- The one server call a command issues when its pre-check passes. -/
def commandCall : UICommand → ServerCall
  | .stop wid => .stopWorker wid
  | .start wid => .startWorker wid
  | .destroy wid => .destroyWorkerResource wid
  | .load nid => .loadNet nid
  | .unload nid => .unloadNet nid
  | .assign wid nid => .patchNetAssign nid wid

/-! ## Claim C4 -/

/-- C4: each state-changing command checks the freshly re-fetched state
first; when the entity is no longer in the state the UI assumed, the
handler makes no server call for the command (and hence does not retry)
and sets an error message; when the assumed state still holds, it issues
exactly the one server call of the command. -/
theorem c4_pre_action_verification (snap : StoreState) (cmd : UICommand) :
    (assumedState snap cmd → preActionHandler snap cmd = ([commandCall cmd], none)) ∧
    (¬ assumedState snap cmd →
      (preActionHandler snap cmd).1 = [] ∧ ((preActionHandler snap cmd).2).isSome = true) := by
  cases cmd with
  | stop wid =>
    cases hfw : findWorker snap wid with
    | none =>
      refine ⟨?_, fun h => ?_⟩
      · rintro ⟨w, hw, -⟩
        rw [hfw] at hw
        cases hw
      · simp [preActionHandler, handleStop, checkWorkerState, hfw]
    | some w =>
      by_cases hs : w.status = .ready
      · refine ⟨fun h => ?_, fun h => absurd ⟨w, hfw, hs⟩ h⟩
        simp [preActionHandler, handleStop, checkWorkerState, commandCall, hfw, hs]
      · refine ⟨?_, fun h => ?_⟩
        · rintro ⟨w', hw', hs'⟩
          rw [hfw] at hw'
          obtain rfl := Option.some.inj hw'
          exact absurd hs' hs
        · simp [preActionHandler, handleStop, checkWorkerState, hfw, hs]
  | start wid =>
    cases hfw : findWorker snap wid with
    | none =>
      refine ⟨?_, fun h => ?_⟩
      · rintro ⟨w, hw, -⟩
        rw [hfw] at hw
        cases hw
      · simp [preActionHandler, handleStart, hfw]
    | some w =>
      by_cases hs : w.status = .stopped ∨ (w.status = .error ∧ w.detail = some .machine_stopped)
      · refine ⟨fun h => ?_, fun h => absurd ⟨w, hfw, hs⟩ h⟩
        rcases hs with hs | ⟨hs1, hs2⟩
        · simp [preActionHandler, handleStart, commandCall, hfw, hs]
        · simp [preActionHandler, handleStart, commandCall, hfw, hs1, hs2]
      · refine ⟨?_, fun h => ?_⟩
        · rintro ⟨w', hw', hs'⟩
          rw [hfw] at hw'
          obtain rfl := Option.some.inj hw'
          exact absurd hs' hs
        · push_neg at hs
          obtain ⟨hs1, hs2⟩ := hs
          by_cases he : w.status = .error
          · have hd : w.detail ≠ some .machine_stopped := hs2 he
            simp [preActionHandler, handleStart, hfw, hs1, he, hd]
          · simp [preActionHandler, handleStart, hfw, hs1, he]
  | destroy wid =>
    cases hfw : findWorker snap wid with
    | none =>
      refine ⟨?_, fun h => ?_⟩
      · rintro ⟨w, hw, -⟩
        rw [hfw] at hw
        cases hw
      · simp [preActionHandler, handleDestroyResource, hfw]
    | some w =>
      by_cases hs : w.status = .ready ∨ w.status = .stopped
      · refine ⟨fun h => ?_, fun h => absurd ⟨w, hfw, hs⟩ h⟩
        rcases hs with hs | hs <;>
          simp [preActionHandler, handleDestroyResource, commandCall, hfw, hs]
      · refine ⟨?_, fun h => ?_⟩
        · rintro ⟨w', hw', hs'⟩
          rw [hfw] at hw'
          obtain rfl := Option.some.inj hw'
          exact absurd hs' hs
        · push_neg at hs
          simp [preActionHandler, handleDestroyResource, hfw, hs.1, hs.2]
  | load nid =>
    cases hfn : findNet snap nid with
    | none =>
      refine ⟨?_, fun h => ?_⟩
      · rintro ⟨n, hn, -⟩
        rw [hfn] at hn
        cases hn
      · simp [preActionHandler, handleLoadNet, hfn]
    | some net =>
      by_cases hl : net.load_state = .loaded
      · refine ⟨?_, fun h => ?_⟩
        · rintro ⟨n, hn, hne, -⟩
          rw [hfn] at hn
          obtain rfl := Option.some.inj hn
          exact absurd hl hne
        · simp [preActionHandler, handleLoadNet, hfn, hl]
      · cases howner : net.worker_id with
        | none =>
          refine ⟨?_, fun h => ?_⟩
          · rintro ⟨n, hn, -, wid, w, hwid, -⟩
            rw [hfn] at hn
            obtain rfl := Option.some.inj hn
            rw [howner] at hwid
            cases hwid
          · simp [preActionHandler, handleLoadNet, hfn, hl, howner]
        | some wid =>
          cases hfw : findWorker snap wid with
          | none =>
            refine ⟨?_, fun h => ?_⟩
            · rintro ⟨n, hn, -, wid', w, hwid, hw, -⟩
              rw [hfn] at hn
              obtain rfl := Option.some.inj hn
              rw [howner] at hwid
              obtain rfl := Option.some.inj hwid
              rw [hfw] at hw
              cases hw
            · simp [preActionHandler, handleLoadNet, hfn, hl, howner, hfw]
          | some w =>
            by_cases hs : w.status = .ready
            · refine ⟨fun h => ?_, fun h => absurd ⟨net, hfn, hl, wid, w, howner, hfw, hs⟩ h⟩
              simp [preActionHandler, handleLoadNet, commandCall, hfn, hl, howner, hfw, hs]
            · refine ⟨?_, fun h => ?_⟩
              · rintro ⟨n, hn, -, wid', w', hwid, hw, hs'⟩
                rw [hfn] at hn
                obtain rfl := Option.some.inj hn
                rw [howner] at hwid
                obtain rfl := Option.some.inj hwid
                rw [hfw] at hw
                obtain rfl := Option.some.inj hw
                exact absurd hs' hs
              · simp [preActionHandler, handleLoadNet, hfn, hl, howner, hfw, hs]
  | unload nid =>
    cases hfn : findNet snap nid with
    | none =>
      refine ⟨?_, fun h => ?_⟩
      · rintro ⟨n, hn, -⟩
        rw [hfn] at hn
        cases hn
      · simp [preActionHandler, handleUnloadNet, hfn]
    | some net =>
      by_cases hl : net.load_state = .loaded
      · cases howner : net.worker_id with
        | none =>
          refine ⟨?_, fun h => ?_⟩
          · rintro ⟨n, hn, -, wid, w, hwid, -⟩
            rw [hfn] at hn
            obtain rfl := Option.some.inj hn
            rw [howner] at hwid
            cases hwid
          · simp [preActionHandler, handleUnloadNet, hfn, hl, howner]
        | some wid =>
          cases hfw : findWorker snap wid with
          | none =>
            refine ⟨?_, fun h => ?_⟩
            · rintro ⟨n, hn, -, wid', w, hwid, hw, -⟩
              rw [hfn] at hn
              obtain rfl := Option.some.inj hn
              rw [howner] at hwid
              obtain rfl := Option.some.inj hwid
              rw [hfw] at hw
              cases hw
            · simp [preActionHandler, handleUnloadNet, hfn, hl, howner, hfw]
          | some w =>
            by_cases hs : w.status = .ready
            · refine ⟨fun h => ?_, fun h => absurd ⟨net, hfn, hl, wid, w, howner, hfw, hs⟩ h⟩
              simp [preActionHandler, handleUnloadNet, commandCall, hfn, hl, howner, hfw, hs]
            · refine ⟨?_, fun h => ?_⟩
              · rintro ⟨n, hn, -, wid', w', hwid, hw, hs'⟩
                rw [hfn] at hn
                obtain rfl := Option.some.inj hn
                rw [howner] at hwid
                obtain rfl := Option.some.inj hwid
                rw [hfw] at hw
                obtain rfl := Option.some.inj hw
                exact absurd hs' hs
              · simp [preActionHandler, handleUnloadNet, hfn, hl, howner, hfw, hs]
      · refine ⟨?_, fun h => ?_⟩
        · rintro ⟨n, hn, hload, -⟩
          rw [hfn] at hn
          obtain rfl := Option.some.inj hn
          exact absurd hload hl
        · simp [preActionHandler, handleUnloadNet, hfn, hl]
  | assign wid nid =>
    cases hfn : findNet snap nid with
    | none =>
      refine ⟨?_, fun h => ?_⟩
      · rintro ⟨n, hn, -⟩
        rw [hfn] at hn
        cases hn
      · simp [preActionHandler, handleAssignNet, hfn]
    | some net =>
      cases howner : net.worker_id with
      | none =>
        refine ⟨fun h => ?_, fun h => absurd ⟨net, hfn, howner⟩ h⟩
        simp [preActionHandler, handleAssignNet, commandCall, hfn, howner]
      | some wid2 =>
        refine ⟨?_, fun h => ?_⟩
        · rintro ⟨n, hn, hw⟩
          rw [hfn] at hn
          obtain rfl := Option.some.inj hn
          rw [howner] at hw
          cases hw
        · simp [preActionHandler, handleAssignNet, hfn, howner]

theorem c4_pre_action_verification_witness :
    (¬ assumedState exState (.stop 2)) ∧
    ((preActionHandler exState (.stop 2)).1 = [] ∧
      ((preActionHandler exState (.stop 2)).2).isSome = true) := by
  have h : ¬ assumedState exState (.stop 2) := by
    rintro ⟨w, hw, -⟩
    have hnone : findWorker exState 2 = none := by decide
    rw [hnone] at hw
    cases hw
  exact ⟨h, (c4_pre_action_verification exState (.stop 2)).2 h⟩

/-! ## Claim C10 -/

/-- C10: handleStart issues the start command if and only if the
re-fetched worker has status stopped, or status error with status_detail
machine_stopped; for every other observed state it makes no server call
and sets the state-changed error message. -/
theorem c10_start_accepts_stopped_or_machine_stopped (snap : StoreState) (wid : Nat) :
    (handleStart snap wid = ([ServerCall.startWorker wid], none) ↔
      ∃ w, findWorker snap wid = some w ∧
        (w.status = .stopped ∨ (w.status = .error ∧ w.detail = some .machine_stopped))) ∧
    (∀ w, findWorker snap wid = some w →
      ¬(w.status = .stopped ∨ (w.status = .error ∧ w.detail = some .machine_stopped)) →
      handleStart snap wid = ([], some (workerStateChangedMsg (some w)))) := by
  constructor
  · constructor
    · intro hrun
      cases hfw : findWorker snap wid with
      | none =>
        rw [show handleStart snap wid = ([], some (workerStateChangedMsg none)) from by
          simp [handleStart, hfw]] at hrun
        cases hrun
      | some w =>
        refine ⟨w, rfl, ?_⟩
        by_contra hs
        push_neg at hs
        obtain ⟨hs1, hs2⟩ := hs
        by_cases he : w.status = .error
        · have hd : w.detail ≠ some .machine_stopped := hs2 he
          rw [show handleStart snap wid = ([], some (workerStateChangedMsg (some w))) from by
            simp [handleStart, hfw, hs1, he, hd]] at hrun
          cases hrun
        · rw [show handleStart snap wid = ([], some (workerStateChangedMsg (some w))) from by
            simp [handleStart, hfw, hs1, he]] at hrun
          cases hrun
    · rintro ⟨w, hw, hs⟩
      rcases hs with hs | ⟨hs1, hs2⟩
      · simp [handleStart, hw, hs]
      · simp [handleStart, hw, hs1, hs2]
  · intro w hfw hs
    push_neg at hs
    obtain ⟨hs1, hs2⟩ := hs
    by_cases he : w.status = .error
    · have hd : w.detail ≠ some .machine_stopped := hs2 he
      simp [handleStart, hfw, hs1, he, hd]
    · simp [handleStart, hfw, hs1, he]

theorem c10_start_accepts_stopped_or_machine_stopped_witness :
    (handleStart
        { workers := [{ id := 1, category := .persistent, status := .error,
                        detail := some .machine_stopped }], nets := [] } 1 =
      ([ServerCall.startWorker 1], none) ↔
      ∃ w, findWorker
        { workers := [{ id := 1, category := .persistent, status := .error,
                        detail := some .machine_stopped }], nets := [] } 1 = some w ∧
        (w.status = .stopped ∨ (w.status = .error ∧ w.detail = some .machine_stopped))) :=
  (c10_start_accepts_stopped_or_machine_stopped
    { workers := [{ id := 1, category := .persistent, status := .error,
                    detail := some .machine_stopped }], nets := [] } 1).1

/-! ## ClientStateCache polling (embedded from src/unnamed/part_009) -/

def POLL_INTERVAL : Nat := 30000

structure PollState where
  timerInterval : Option Nat
  inFlightCount : Nat
  hidden : Bool
  deriving DecidableEq, Repr

inductive PollEvent
  | tick
  | refreshDone
  | visibilityHidden
  | visibilityVisible
  deriving DecidableEq, Repr

inductive PollAction
  | startRefresh
  deriving DecidableEq, Repr

/-- Embeds the polling logic of the workers page (src/unnamed/part_009):
poll() returns immediately when a previous refresh has not returned
(pollInFlight), otherwise starts refreshAll for the workers and nets
collections; startPolling() installs a fresh 30000ms interval;
the visibilitychange handler stops the interval when the page becomes
hidden, and calls poll() (an immediate refresh, subject to the same
in-flight skip) followed by startPolling() when it becomes visible. A
tick can only fire while an interval is installed. -/
def pollStep (st : PollState) : PollEvent → PollState × List PollAction
  | .tick =>
    if st.timerInterval = none then (st, [])
    else if st.inFlightCount ≠ 0 then (st, [])
    else ({ st with inFlightCount := st.inFlightCount + 1 }, [.startRefresh])
  | .refreshDone => ({ st with inFlightCount := st.inFlightCount - 1 }, [])
  | .visibilityHidden => ({ st with hidden := true, timerInterval := none }, [])
  | .visibilityVisible =>
    if st.inFlightCount ≠ 0 then
      ({ st with hidden := false, timerInterval := some POLL_INTERVAL }, [])
    else
      ({ st with hidden := false, inFlightCount := st.inFlightCount + 1,
                 timerInterval := some POLL_INTERVAL }, [.startRefresh])

/-- The state right after onMount: refreshAll has returned and
startPolling installed the 30s interval. -/
def initPollState : PollState :=
  { timerInterval := some POLL_INTERVAL, inFlightCount := 0, hidden := false }

def pollRun (st : PollState) (evs : List PollEvent) : PollState :=
  evs.foldl (fun s e => (pollStep s e).1) st

/-- Poll-loop sanity: at most one refresh in flight, polling suspended
(no interval installed) while hidden, and any installed interval is the
30000ms one. -/
def PollInv (st : PollState) : Prop :=
  st.inFlightCount ≤ 1 ∧
  (st.hidden = true → st.timerInterval = none) ∧
  (st.timerInterval = none ∨ st.timerInterval = some POLL_INTERVAL)

theorem pollInv_step {st : PollState} (h : PollInv st) (e : PollEvent) :
    PollInv (pollStep st e).1 := by
  obtain ⟨h1, h2, h3⟩ := h
  cases e with
  | tick =>
    by_cases ht : st.timerInterval = none
    · simp only [pollStep, if_pos ht]
      exact ⟨h1, h2, h3⟩
    · by_cases hf : st.inFlightCount ≠ 0
      · simp only [pollStep, if_neg ht, if_pos hf]
        exact ⟨h1, h2, h3⟩
      · simp only [pollStep, if_neg ht, if_neg hf]
        refine ⟨by simp; omega, h2, h3⟩
  | refreshDone =>
    exact ⟨by simp [pollStep]; omega, h2, h3⟩
  | visibilityHidden =>
    exact ⟨h1, fun _ => rfl, Or.inl rfl⟩
  | visibilityVisible =>
    by_cases hf : st.inFlightCount ≠ 0
    · simp only [pollStep, if_pos hf]
      exact ⟨h1, by simp, Or.inr rfl⟩
    · simp only [pollStep, if_neg hf]
      refine ⟨by simp; omega, by simp, Or.inr rfl⟩

/-! ## Claim C5 -/

/-- C5: the poll loop interval is 30 seconds; a tick is skipped whenever a
previous refresh is still in flight; along every event sequence at most
one refresh is in flight and polling is fully suspended while hidden; and
becoming visible with no refresh in flight immediately starts a refresh
and reinstalls the 30000ms interval. -/
theorem c5_poll_loop :
    POLL_INTERVAL = 30000 ∧
    (∀ st : PollState, st.inFlightCount ≠ 0 → pollStep st .tick = (st, [])) ∧
    (∀ evs : List PollEvent, PollInv (pollRun initPollState evs)) ∧
    (∀ st : PollState, st.inFlightCount = 0 →
      pollStep st .visibilityVisible =
        ({ st with hidden := false, inFlightCount := 1,
                   timerInterval := some POLL_INTERVAL }, [.startRefresh])) ∧
    (∀ st : PollState, st.timerInterval = some POLL_INTERVAL → st.inFlightCount = 0 →
      pollStep st .tick =
        ({ st with inFlightCount := 1 }, [.startRefresh])) := by
  refine ⟨rfl, ?_, ?_, ?_, ?_⟩
  · intro st hf
    by_cases ht : st.timerInterval = none
    · simp [pollStep, ht]
    · simp [pollStep, ht, hf]
  · intro evs
    have main : ∀ (l : List PollEvent) (st : PollState),
        PollInv st → PollInv (pollRun st l) := by
      intro l
      induction l with
      | nil => intro st hst; exact hst
      | cons e es ih => intro st hst; exact ih _ (pollInv_step hst e)
    exact main evs initPollState ⟨by decide, by decide, Or.inr rfl⟩
  · intro st hf
    simp [pollStep, hf]
  · intro st ht hf
    simp [pollStep, ht, hf, POLL_INTERVAL]

theorem c5_poll_loop_witness :
    PollInv (pollRun initPollState
      [PollEvent.tick, PollEvent.tick, PollEvent.visibilityHidden,
       PollEvent.refreshDone, PollEvent.visibilityVisible]) ∧
    (pollStep { timerInterval := none, inFlightCount := 0, hidden := true }
        .visibilityVisible =
      ({ timerInterval := some POLL_INTERVAL, inFlightCount := 1, hidden := false },
       [PollAction.startRefresh])) := by
  refine ⟨c5_poll_loop.2.2.1
    [PollEvent.tick, PollEvent.tick, PollEvent.visibilityHidden,
     PollEvent.refreshDone, PollEvent.visibilityVisible], ?_⟩
  exact c5_poll_loop.2.2.2.1 { timerInterval := none, inFlightCount := 0, hidden := true } rfl

end Petrivelte
